import Mathlib

/-!
# GeniDocs plugin: change collection, documentability filter and dispatch

A shallow embedding of `src/utils/api.js` and `src/index.js`.

JavaScript strings are modelled by `String` (a sequence of code points). Every
pattern and every allow-listed extension of the program is ASCII, so matching on
code points and matching on UTF-16 code units give the same answers.
-/

namespace GeniDocs

/-! ## JavaScript string primitives -/

/-- Scan for `String.prototype.lastIndexOf`: `i` is the index of the head of the
remaining characters, `found` the last index seen so far. -/
def lastIndexOfAux (c : Char) : List Char → Nat → Int → Int
  | [], _, found => found
  | x :: xs, i, found => lastIndexOfAux c xs (i + 1) (if x = c then (i : Int) else found)

/-- The call `s.lastIndexOf(c)` for a one-character search string `c`: the index of the
last occurrence of `c` in `s`, or `-1` when there is none. -/
def lastIndexOf (s : String) (c : Char) : Int :=
  lastIndexOfAux c s.toList 0 (-1)

/-- The call `s.substring(start)`: a start below 0 is taken as 0 and a start beyond the
end as the length; the result runs to the end of `s`. -/
def substring (s : String) (start : Int) : String :=
  ⟨s.toList.drop (min (max start 0).toNat s.length)⟩

/-- Lower-case mapping of one code point, as `String.prototype.toLowerCase`
applies it. The three branches are all the code points whose mapping contains
an ASCII character and differs from the code point itself: the letters `A`-`Z`,
U+212A (Kelvin sign, mapped to `k`) and U+0130 (mapped to `i` followed by
U+0307). Any other code point with a lower-case form maps to non-ASCII code
points only; it is left as it is here, which does not change any comparison
with the ASCII-only allow-list. -/
def toLowerCaseChar (c : Char) : List Char :=
  if 65 ≤ c.toNat ∧ c.toNat ≤ 90 then [Char.ofNat (c.toNat + 32)]
  else if c.toNat = 0x212A then ['k']
  else if c.toNat = 0x0130 then ['i', Char.ofNat 0x0307]
  else [c]

/-- The call `s.toLowerCase()`, code point by code point. -/
def toLowerCase (s : String) : String :=
  ⟨s.toList.flatMap toLowerCaseChar⟩

/-! ## Regular expressions of the skip list -/

/-- The fragment of regular expressions that the skip list uses: runs of literal
characters (an escaped dot or slash is the character itself), the anchors `^`
and `$`, alternation and concatenation. -/
inductive Pattern where
  | lit (s : String)
  | bol
  | eol
  | alt (a b : Pattern)
  | seq (a b : Pattern)

namespace Pattern

/-- Backtracking matcher: try to match the pattern in `input` at index `i` and
hand the end index to the continuation `k`. -/
def matchFrom : Pattern → List Char → Nat → (Nat → Bool) → Bool
  | lit s, input, i, k =>
    if s.toList.isPrefixOf (input.drop i) then k (i + s.length) else false
  | bol, _, i, k => i == 0 && k i
  | eol, input, i, k => i == input.length && k i
  | alt a b, input, i, k => a.matchFrom input i k || b.matchFrom input i k
  | seq a b, input, i, k => a.matchFrom input i (fun j => b.matchFrom input j k)

/-- The call `pattern.test(input)` for a pattern without flags: a match is looked for at
every start index from 0 to the length of the input. -/
def test (p : Pattern) (input : String) : Bool :=
  (List.range (input.length + 1)).any
    (fun i => p.matchFrom input.toList i (fun _ => true))

end Pattern

/-! ## `src/utils/api.js`: shouldDocumentFile -/

/-- The `skipPatterns` array of `shouldDocumentFile`, in source order. -/
def skipPatterns : List Pattern := [
  .lit "node_modules",
  .lit ".git",
  .lit ".DS_Store",
  .lit "package-lock.json",
  .lit "yarn.lock",
  .lit ".env",
  .seq (.lit ".log") .eol,
  .seq (.lit ".map") .eol,
  .seq (.lit ".min.") (.seq (.alt (.lit "js") (.lit "css")) .eol),
  .seq .bol (.lit "dist/"),
  .seq .bol (.lit "build/"),
  .lit ".next/",
  .lit ".cache/",
  .lit ".vscode/",
  .lit ".idea/",
  .lit ".github/",
  .seq .bol (.lit "coverage/"),
  .seq .bol (.lit "__tests__/"),
  .seq .bol (.lit "test/"),
  .seq .bol (.lit "tests/"),
  .lit ".test.",
  .lit ".spec.",
  .seq (.lit ".d.ts") .eol,
  .lit ".config.",
  .lit ".eslintrc",
  .lit ".prettierrc",
  .lit ".babelrc",
  .lit "tsconfig",
  .lit "webpack",
  .lit "rollup",
  .lit "jest",
  .lit "karma",
  .lit "cypress",
  .seq (.lit ".svg") .eol,
  .seq (.lit ".png") .eol,
  .seq (.lit ".jpg") .eol,
  .seq (.lit ".jpeg") .eol,
  .seq (.lit ".gif") .eol,
  .seq (.lit ".ico") .eol,
  .lit ".woff",
  .lit ".ttf",
  .lit ".eot",
  .lit ".otf"]

/-- The `documentableExtensions` array of `shouldDocumentFile`. -/
def documentableExtensions : List String := [
  ".js", ".jsx", ".ts", ".tsx",
  ".py", ".java", ".go", ".rb", ".php", ".cs", ".c", ".cpp", ".h", ".swift", ".kt", ".rs",
  ".html", ".css", ".scss", ".less", ".json", ".yml", ".yaml", ".sh", ".bash", ".zsh", ".ps1"]

/-- Whether some skip pattern matches the file name (`skipPatterns.some(...)`). -/
def matchesSkipPattern (filename : String) : Bool :=
  skipPatterns.any (fun pattern => pattern.test filename)

/-- The function `shouldDocumentFile(filename)`: the skip patterns first, then the
allow-list of extensions. -/
def shouldDocumentFile (filename : String) : Bool :=
  if matchesSkipPattern filename then false
  else
    let extension := toLowerCase (substring filename (lastIndexOf filename '.'))
    documentableExtensions.contains extension


/-! ## Data of `src/index.js` -/

/-- A change entry as the handlers build it and pass it on. `none` in an optional
field means that the object has no such property. -/
structure FileChange where
  path : String
  changeType : String
  additions : Option Nat
  deletions : Option Nat
  changes : Option Nat
  content : Option String
  deriving DecidableEq, Repr

/-- One commit of a push payload: the three path lists the push handler reads. -/
structure Commit where
  added : List String
  modified : List String
  removed : List String
  deriving DecidableEq, Repr

/-- One record of `pulls.listFiles`. -/
structure PullFile where
  filename : String
  status : String
  additions : Nat
  deletions : Nat
  changes : Nat
  deriving DecidableEq, Repr

/-- The `data` object handed to `updateDocumentation` and `sendToDocumentationServer`.
`prNumber` is `none` for the `null` of a push. -/
structure DocData where
  owner : String
  repo : String
  branch : Option String
  prNumber : Option Nat
  files : List FileChange
  deriving DecidableEq, Repr

/-- JSON values of the request body. An object is its list of keys in insertion
order; a key that is not in the list is not sent. -/
inductive Json where
  | null
  | str (s : String)
  | num (n : Nat)
  | arr (items : List Json)
  | obj (fields : List (String × Json))

/-- Property lookup on an object (`none`: no such key, or not an object). -/
def Json.get? : Json → String → Option Json
  | Json.obj fields, key => fields.lookup key
  | _, _ => none

/-- The call `axios.post(url, payload, headers)`. -/
structure HttpRequest where
  url : String
  payload : Json
  headers : List (String × String)

/-- The argument of `octokit.issues.createComment`. -/
structure Comment where
  owner : String
  repo : String
  issue_number : Nat
  body : String
  deriving DecidableEq, Repr

/-- What a run does to the outside world, in order. -/
inductive Effect where
  | log (level : String) (message : String)
  | httpPost (request : HttpRequest)
  | createComment (comment : Comment)

/-- The requests of the HTTP POSTs in a trace. -/
def posts : List Effect → List HttpRequest
  | [] => []
  | Effect.httpPost r :: t => r :: posts t
  | _ :: t => posts t

/-- The comments whose posting a trace attempts. -/
def comments : List Effect → List Comment
  | [] => []
  | Effect.createComment c :: t => c :: comments t
  | _ :: t => comments t

/-- The environment of a run: the two configuration variables and the outcome of
each call to an external service. A failing call is `Except.error` with the
message of the error it throws. `getContent i` is the outcome of the content
request for the entry at index `i` of the list being processed: outcomes are
keyed by position, so that each entry fails or succeeds on its own. A success
carries `data.content`; a response without usable content counts as a failure,
as the decoding then throws inside the same `try`. `decodeBase64` stands for
`Buffer.from(_, 'base64').toString()`. -/
structure Env where
  docsServerUrl : Option String
  apiKey : Option String
  post : HttpRequest → Except String Json
  createComment : Comment → Except String Unit
  getContent : Nat → Except String String
  decodeBase64 : String → String

/-- Truthiness of a value that is a string or missing: a missing value and the
empty string are falsy. -/
def truthyStr : Option String → Bool
  | some s => s != ""
  | none => false

/-- Truthiness of a value that is a number or missing (`null`, `undefined`): a
missing value and 0 are falsy. -/
def truthyNum : Option Nat → Bool
  | some n => n != 0
  | none => false

/-- The spread `...(value && (fields))` with a string or missing value: the fields are
added when the value is truthy and nothing is added otherwise. -/
def spreadStr (key : String) (value : Option String) : List (String × Json) :=
  if truthyStr value then [(key, Json.str (value.getD ""))] else []

/-- The spread `...(value && (fields))` with a number or missing value. -/
def spreadNum (key : String) (value : Option Nat) : List (String × Json) :=
  if truthyNum value then [(key, Json.num (value.getD 0))] else []

/-! ## `src/utils/api.js`: sendToDocumentationServer -/

/-- The object built for one file of the payload; `file.content || ''` is the
content, or the empty string when the content is missing or empty. -/
def filePayload (file : FileChange) : Json :=
  Json.obj ([("path", Json.str file.path),
      ("content", Json.str (if truthyStr file.content then file.content.getD "" else "")),
      ("changeType", Json.str file.changeType)]
    ++ spreadNum "additions" file.additions
    ++ spreadNum "deletions" file.deletions
    ++ spreadNum "changes" file.changes)

/-- The `payload` object of `sendToDocumentationServer`. -/
def buildPayload (data : DocData) : Json :=
  let documentableFiles := data.files.filter (fun file => shouldDocumentFile file.path)
  Json.obj ([("owner", Json.str data.owner), ("repo", Json.str data.repo)]
    ++ spreadStr "branch" data.branch
    ++ spreadNum "prNumber" data.prNumber
    ++ [("files", Json.arr (documentableFiles.map filePayload))])

/-- The request of `sendToDocumentationServer`, for a configured server URL. -/
def buildRequest (docsServerUrl : String) (apiKey : Option String) (data : DocData) :
    HttpRequest where
  url := docsServerUrl ++ "/api/generate"
  payload := buildPayload data
  headers := [("Content-Type", "application/json")] ++
    (if truthyStr apiKey then [("Authorization", "Bearer " ++ apiKey.getD "")] else [])

/-- The function `sendToDocumentationServer(data)`: the effects of the call, and the value it
returns (`response.data`) or the message of the error it throws. -/
def sendToDocumentationServer (env : Env) (data : DocData) :
    List Effect × Except String Json :=
  if !truthyStr env.docsServerUrl then
    ([], Except.error "DOCS_SERVER_URL not configured")
  else
    let request := buildRequest (env.docsServerUrl.getD "") env.apiKey data
    match env.post request with
    | Except.ok responseData => ([Effect.httpPost request], Except.ok responseData)
    | Except.error message =>
      ([Effect.httpPost request,
        Effect.log "error" ("Error sending to documentation server: " ++ message)],
        Except.error message)

/-! ## `src/index.js`: the push handler's collection of changed files -/

/-- An object made by an object literal: `ref` is its identity, `value` its properties. -/
structure Obj where
  ref : Nat
  value : FileChange
  deriving DecidableEq, Repr

/-- The call `set.add(o)` on a JavaScript `Set` holding objects: the set keeps insertion
order and an object is a member when the very same object (the same reference)
was added before; the properties of the objects are not compared. -/
def setAdd (set : List Obj) (o : Obj) : List Obj :=
  if set.any (fun x => x.ref == o.ref) then set else set ++ [o]

/-- State of the collection loop: the next unused reference and `changedFiles`. -/
structure CollectState where
  nextRef : Nat
  changedFiles : List Obj
  deriving DecidableEq, Repr

/-- The properties of the object literal `(path: file, changeType: ...)`. -/
def pushEntry (changeType : String) (file : String) : FileChange :=
  ⟨file, changeType, none, none, none, none⟩

/-- The call `changedFiles.add((path: file, changeType: ...))`: the object literal makes a
new object, which is then added to the set. -/
def addLiteral (changeType : String) (st : CollectState) (file : String) : CollectState where
  nextRef := st.nextRef + 1
  changedFiles := setAdd st.changedFiles ⟨st.nextRef, pushEntry changeType file⟩

/-- The body of `commits.forEach`: the added, the modified and then the removed paths. -/
def collectCommit (st : CollectState) (commit : Commit) : CollectState :=
  let st₁ := commit.added.foldl (addLiteral "added") st
  let st₂ := commit.modified.foldl (addLiteral "modified") st₁
  commit.removed.foldl (addLiteral "removed") st₂

/-- The set `changedFiles` after the loop over the commits of a push. -/
def collectChangedFiles (commits : List Commit) : List Obj :=
  (commits.foldl collectCommit ⟨0, []⟩).changedFiles

/-- The array `Array.from(changedFiles)`: the entries the push handler passes on. -/
def collectPushChanges (commits : List Commit) : List FileChange :=
  (collectChangedFiles commits).map (fun o => o.value)

/-- Every object of the set was made before the next reference. -/
def CollectState.Fresh (st : CollectState) : Prop :=
  ∀ o ∈ st.changedFiles, o.ref < st.nextRef

/-- The entries one commit contributes, in the order the handler adds them. -/
def commitEntries (commit : Commit) : List FileChange :=
  commit.added.map (pushEntry "added") ++ commit.modified.map (pushEntry "modified") ++
    commit.removed.map (pushEntry "removed")

/-! ## `src/index.js`: the pull-request handler's list of changes -/

/-- The function `getChangeType(status)`. -/
def getChangeType (status : String) : String :=
  match status with
  | "added" => "added"
  | "removed" => "removed"
  | "modified" => "modified"
  | "changed" => "modified"
  | "renamed" => "renamed"
  | _ => status

/-- The `formattedChanges` of the pull-request handler. -/
def formattedChanges (changedFiles : List PullFile) : List FileChange :=
  changedFiles.map (fun file =>
    { path := file.filename
      changeType := getChangeType file.status
      additions := some file.additions
      deletions := some file.deletions
      changes := some file.changes
      content := none })

/-! ## `src/index.js`: updateDocumentation -/

/-- The comment posted on the pull request after a successful dispatch. -/
def triggeredComment (data : DocData) : Comment where
  owner := data.owner
  repo := data.repo
  issue_number := data.prNumber.getD 0
  body := "📚 Documentation update has been triggered for the changes in this pull request.\n\nThe documentation is being generated and will be available soon at your GeniDocs platform."

/-- The comment posted on the pull request from the `catch` block. -/
def errorComment (data : DocData) (message : String) : Comment where
  owner := data.owner
  repo := data.repo
  issue_number := data.prNumber.getD 0
  body := "⚠️ There was an error updating the documentation: " ++ message ++
    ". Please check the logs for more details."

/-- The `createComment` call: the effect, and whether it returns or throws. -/
def postComment (env : Env) (c : Comment) : List Effect × Except String Unit :=
  ([Effect.createComment c], env.createComment c)

/-- The log lines written before the emptiness test of `updateDocumentation`. -/
def filterLogs (data : DocData) : List Effect :=
  [Effect.log "info"
      ("Sending update to documentation server for " ++ data.owner ++ "/" ++ data.repo),
    Effect.log "info"
      ("Processing " ++ toString data.files.length ++ " files for documentation updates:")]
  ++ data.files.map (fun file =>
      Effect.log "info" ("- " ++ file.path ++ " (" ++ file.changeType ++ ")"))
  ++ data.files.map (fun file =>
      Effect.log "info" ("File " ++ file.path ++ ": " ++
        (if shouldDocumentFile file.path then "Will document" else "Skipping") ++
        " (" ++ file.changeType ++ ")"))

/-- The log lines of the early return of `updateDocumentation`. -/
def skipLogs : List Effect :=
  [Effect.log "warn" "No documentable files found in this change. Skipping update.",
    Effect.log "info" "This could be because:",
    Effect.log "info"
      "1. All changed files are non-code files (e.g., .gitignore, package-lock.json)",
    Effect.log "info"
      "2. All changed files are in directories that are excluded (e.g., node_modules)",
    Effect.log "info"
      "3. All changed files have extensions that are not in the documentable list"]

/-- The `try` block of `updateDocumentation`: its effects, and whether it completes
or throws. -/
def updateDocumentationTry (env : Env) (data : DocData) : List Effect × Except String Unit :=
  let documentableFiles := data.files.filter (fun file => shouldDocumentFile file.path)
  if documentableFiles.length == 0 then
    (filterLogs data ++ skipLogs, Except.ok ())
  else
    let willLogs :=
      [Effect.log "info" ("Will document " ++ toString documentableFiles.length ++ " files:")]
      ++ documentableFiles.map (fun file => Effect.log "info" ("- " ++ file.path))
    let filteredData : DocData := { data with files := documentableFiles }
    let sent := sendToDocumentationServer env filteredData
    match sent.2 with
    | Except.error message => (filterLogs data ++ willLogs ++ sent.1, Except.error message)
    | Except.ok _ =>
      let received := [Effect.log "info"
        "Documentation server response received. Documentation generation started."]
      if truthyNum data.prNumber then
        let posted := postComment env (triggeredComment data)
        (filterLogs data ++ willLogs ++ sent.1 ++ received ++ posted.1, posted.2)
      else
        (filterLogs data ++ willLogs ++ sent.1 ++ received, Except.ok ())

/-- The function `updateDocumentation(context, data)`: the `try` block, and the `catch` block
when the `try` block throws. The result is `Except.error` when an error leaves
the function. -/
def updateDocumentation (env : Env) (data : DocData) : List Effect × Except String Unit :=
  let tried := updateDocumentationTry env data
  match tried.2 with
  | Except.ok _ => (tried.1, Except.ok ())
  | Except.error message =>
    let logged := [Effect.log "error" ("Error updating documentation: " ++ message)]
    if truthyNum data.prNumber then
      let posted := postComment env (errorComment data message)
      (tried.1 ++ logged ++ posted.1, posted.2)
    else
      (tried.1 ++ logged, Except.ok ())

/-! ## `src/index.js`: processChangedFiles -/

/-- The function mapped over `changedFiles` inside `Promise.all`, for the entry at
index `i`: the entry it resolves to and the line it logs. -/
def fetchContent (env : Env) (i : Nat) (fileChange : FileChange) : FileChange × List Effect :=
  if fileChange.changeType = "removed" then (fileChange, [])
  else
    match env.getContent i with
    | Except.ok data =>
      ({ fileChange with content := some (env.decodeBase64 data) }, [])
    | Except.error message =>
      (fileChange,
        [Effect.log "error" ("Error getting content for " ++ fileChange.path ++ ": " ++ message)])

/-- The `filesWithContent` of `processChangedFiles`: `Promise.all` resolves to the
results in the order of the input, because no mapped function rejects. -/
def filesWithContent (env : Env) (changedFiles : List FileChange) : List FileChange :=
  changedFiles.enum.map (fun p => (fetchContent env p.1 p.2).1)

/-- The log lines of the content requests, listed in input order. -/
def fetchLogs (env : Env) (changedFiles : List FileChange) : List Effect :=
  changedFiles.enum.flatMap (fun p => (fetchContent env p.1 p.2).2)

/-- The function `processChangedFiles(context, owner, repo, branch, changedFiles, prNumber)`. An
error that leaves `updateDocumentation` is caught and logged. -/
def processChangedFiles (env : Env) (owner repo branch : String)
    (changedFiles : List FileChange) (prNumber : Option Nat) : List Effect :=
  let start := [Effect.log "info"
    ("Processing " ++ toString changedFiles.length ++ " changed files")]
  let updated := updateDocumentation env
    { owner := owner, repo := repo, branch := some branch, prNumber := prNumber,
      files := filesWithContent env changedFiles }
  match updated.2 with
  | Except.ok _ => start ++ fetchLogs env changedFiles ++ updated.1
  | Except.error message =>
    start ++ fetchLogs env changedFiles ++ updated.1 ++
      [Effect.log "error" ("Error processing changed files: " ++ message)]

/-! ## Sample inputs -/

/-- An environment with a configured server in which every external call succeeds. -/
def sampleEnv : Env where
  docsServerUrl := some "https://docs.example.com"
  apiKey := none
  post := fun _ => Except.ok (Json.obj [])
  createComment := fun _ => Except.ok ()
  getContent := fun _ => Except.ok "Y29udGVudA=="
  decodeBase64 := fun s => s

/-- A pull-request request whose only file is `package-lock.json`. -/
def lockfileOnly : DocData where
  owner := "Dennis2340"
  repo := "GeniDocs"
  branch := some "main"
  prNumber := some 7
  files := [⟨"package-lock.json", "modified", some 1, some 1, some 2, some "lock"⟩]

/-- A pull-request request built from one file record with deletions only, as
`formattedChanges` formats it: `additions` is present on the entry, with value 0. -/
def deletionsOnly : DocData where
  owner := "Dennis2340"
  repo := "GeniDocs"
  branch := some "main"
  prNumber := some 7
  files := formattedChanges [⟨"src/app.js", "modified", 0, 3, 3⟩]

/-- The request of the repository's API test: two source files and a lock file. -/
def apiTestData : DocData where
  owner := "Dennis2340"
  repo := "GeniDocs"
  branch := some "main"
  prNumber := none
  files := [⟨"src/index.js", "modified", none, none, none, some "main();"⟩,
    ⟨"src/utils/helper.js", "added", none, none, none, some "export function formatData"⟩,
    ⟨"package-lock.json", "modified", none, none, none, some "lock"⟩]

/-- An environment like `sampleEnv` in which the content request for the entry at
index 1 fails. -/
def secondFetchFails : Env where
  docsServerUrl := some "https://docs.example.com"
  apiKey := none
  post := fun _ => Except.ok (Json.obj [])
  createComment := fun _ => Except.ok ()
  getContent := fun i => if i = 1 then Except.error "Not Found" else Except.ok "Y29udGVudA=="
  decodeBase64 := fun s => s

/-- The messages of the log lines of one level in a trace, in order. -/
def logged (level : String) : List Effect → List String
  | [] => []
  | Effect.log l message :: t =>
    if l = level then message :: logged level t else logged level t
  | _ :: t => logged level t

/-- A pull-request request with one documentable file. -/
def pullRequestData : DocData where
  owner := "Dennis2340"
  repo := "GeniDocs"
  branch := some "feature"
  prNumber := some 7
  files := [⟨"src/index.js", "modified", some 2, some 1, some 3, some "main();"⟩]

/-- An environment in which the documentation server answers and every comment fails. -/
def commentsFail : Env where
  docsServerUrl := some "https://docs.example.com"
  apiKey := none
  post := fun _ => Except.ok (Json.obj [])
  createComment := fun _ => Except.error "Resource not accessible by integration"
  getContent := fun _ => Except.ok "Y29udGVudA=="
  decodeBase64 := fun s => s

/-- An environment in which the documentation server and every comment fail. -/
def serverAndCommentsFail : Env where
  docsServerUrl := some "https://docs.example.com"
  apiKey := none
  post := fun _ => Except.error "Request failed with status code 500"
  createComment := fun _ => Except.error "Resource not accessible by integration"
  getContent := fun _ => Except.ok "Y29udGVudA=="
  decodeBase64 := fun s => s

/-! ## Letter case of ASCII letters -/

/-- Two characters that are the same up to the case of an ASCII letter: they are
equal, or one of them is a capital `A`-`Z` and the other is the small letter 32
code points above it. The relation is stated on code points alone and does not
refer to `toLowerCase`. -/
def asciiCaseVariant (a b : Char) : Bool :=
  a == b ||
  (decide (65 ≤ a.toNat) && decide (a.toNat ≤ 90) && b.toNat == a.toNat + 32) ||
  (decide (65 ≤ b.toNat) && decide (b.toNat ≤ 90) && a.toNat == b.toNat + 32)

/-- Two character sequences of the same length that agree position by position up
to the case of ASCII letters: one is got from the other by changing the case of
some of its ASCII letters. -/
def asciiCaseVariants : List Char → List Char → Bool
  | [], [] => true
  | a :: l₁, b :: l₂ => asciiCaseVariant a b && asciiCaseVariants l₁ l₂
  | _, _ => false

/-! # Theorems -/
/-! ## Facts about the string primitives -/

theorem lastIndexOfAux_of_not_mem (c : Char) (l : List Char) (i : Nat) (found : Int)
    (h : c ∉ l) : lastIndexOfAux c l i found = found := by
  induction l generalizing i found with
  | nil => rfl
  | cons x xs ih =>
    have hx : x ≠ c := fun e => h (by simp [e])
    have hxs : c ∉ xs := fun m => h (List.mem_cons_of_mem _ m)
    simp [lastIndexOfAux, hx, ih _ _ hxs]

theorem lastIndexOfAux_append (c : Char) (pre e : List Char) (i : Nat) (found : Int)
    (h : c ∉ e) : lastIndexOfAux c (pre ++ c :: e) i found = ((i + pre.length : Nat) : Int) := by
  induction pre generalizing i found with
  | nil => simp [lastIndexOfAux, lastIndexOfAux_of_not_mem c e _ _ h]
  | cons x xs ih =>
    show lastIndexOfAux c (xs ++ c :: e) (i + 1) _ = _
    rw [ih]
    congr 1
    simp only [List.length_cons]
    omega

/-- Every list either lacks `c` or splits at the last occurrence of `c`. -/
theorem exists_last_split (c : Char) (l : List Char) :
    c ∉ l ∨ ∃ pre e, l = pre ++ c :: e ∧ c ∉ e := by
  induction l with
  | nil => exact Or.inl (by simp)
  | cons x xs ih =>
    rcases ih with h | ⟨pre, e, rfl, he⟩
    · by_cases hx : x = c
      · exact Or.inr ⟨[], xs, by simp [hx], h⟩
      · exact Or.inl (by simp [h, Ne.symm hx])
    · exact Or.inr ⟨x :: pre, e, by simp, he⟩

/-- Without a `c` in `s`, `lastIndexOf` is `-1` and `substring` returns all of `s`. -/
theorem substring_lastIndexOf_of_not_mem (s : String) (c : Char) (h : c ∉ s.toList) :
    substring s (lastIndexOf s c) = s := by
  have h1 : lastIndexOf s c = -1 := lastIndexOfAux_of_not_mem c _ _ _ h
  rw [h1]
  show String.mk (s.toList.drop (min 0 s.length)) = s
  simp

/-- When `s` is `pre ++ c :: e` with no `c` in `e`, the substring taken at
`lastIndexOf` is `c :: e`. -/
theorem substring_lastIndexOf_of_split (s : String) (c : Char) (pre e : List Char)
    (hs : s.toList = pre ++ c :: e) (h : c ∉ e) :
    substring s (lastIndexOf s c) = ⟨c :: e⟩ := by
  have hl : s.length = pre.length + (e.length + 1) := by
    show s.toList.length = _
    rw [hs]
    simp
  have h1 : lastIndexOf s c = ((0 + pre.length : Nat) : Int) := by
    unfold lastIndexOf
    rw [hs]
    exact lastIndexOfAux_append c pre e 0 _ h
  have h2 : min (max ((0 + pre.length : Nat) : Int) 0).toNat s.length = pre.length := by
    rw [hl]; simp
  unfold substring
  rw [h1, h2, hs]
  simp

theorem toLowerCaseChar_dot (c : Char) (h : '.' ∈ toLowerCaseChar c) : c = '.' := by
  unfold toLowerCaseChar at h
  split at h
  · rename_i hr
    exfalso
    have hc : c = Char.ofNat c.toNat := (Char.ofNat_toNat c).symm
    generalize c.toNat = n at hr h
    obtain ⟨h1, h2⟩ := hr
    interval_cases n <;> revert h <;> decide
  · split at h
    · exact absurd h (by decide)
    · split at h
      · exact absurd h (by decide)
      · exact (List.mem_singleton.mp h).symm

theorem toLowerCaseChar_slash : toLowerCaseChar '/' = ['/'] := by decide

theorem toLowerCaseChar_of_dot : toLowerCaseChar '.' = ['.'] := by decide

/-- Lower-casing neither creates nor needs a dot: a dot in the result comes from a dot. -/
theorem dot_mem_of_toLowerCase (s : String) (h : '.' ∈ (toLowerCase s).toList) :
    '.' ∈ s.toList := by
  obtain ⟨c, hc, hd⟩ := List.mem_flatMap.mp h
  exact toLowerCaseChar_dot c hd ▸ hc

/-- Lower-casing keeps every slash. -/
theorem slash_mem_toLowerCase (s : String) (h : '/' ∈ s.toList) :
    '/' ∈ (toLowerCase s).toList :=
  List.mem_flatMap.mpr ⟨'/', h, by simp [toLowerCaseChar_slash]⟩

theorem toLowerCase_cons_dot (e : List Char) :
    toLowerCase ⟨'.' :: e⟩ = ⟨'.' :: (toLowerCase ⟨e⟩).toList⟩ := by
  simp [toLowerCase, List.flatMap_cons, toLowerCaseChar_of_dot]

theorem dot_mem_of_documentable :
    ∀ x ∈ documentableExtensions, '.' ∈ x.toList ∧ '/' ∉ x.toList ∧ x ≠ "." := by decide

/-- The value the extension test of `shouldDocumentFile` computes, in terms of the
place of the last dot of the file name. -/
theorem shouldDocumentFile_eq (filename : String) (h : matchesSkipPattern filename = false) :
    shouldDocumentFile filename =
      documentableExtensions.contains
        (toLowerCase (substring filename (lastIndexOf filename '.'))) := by
  simp [shouldDocumentFile, h]

theorem matchesSkipPattern_eq_false_iff (filename : String) :
    matchesSkipPattern filename = false ↔ ∀ p ∈ skipPatterns, Pattern.test p filename = false := by
  simp [matchesSkipPattern]

/-- A documentable file name splits at its last dot into a stem and an extension
that holds no slash. -/
theorem split_of_shouldDocumentFile (filename : String) (h : shouldDocumentFile filename = true) :
    ∃ pre e, filename.toList = pre ++ '.' :: e ∧ '.' ∉ e ∧ '/' ∉ e ∧ e ≠ [] ∧
      toLowerCase ⟨'.' :: e⟩ ∈ documentableExtensions := by
  have hs : matchesSkipPattern filename = false := by
    by_contra hc
    simp [shouldDocumentFile, hc] at h
  rw [shouldDocumentFile_eq filename hs] at h
  have hmem := List.elem_iff.mp h
  rcases exists_last_split '.' filename.toList with hn | ⟨pre, e, hsplit, he⟩
  · exfalso
    rw [substring_lastIndexOf_of_not_mem filename '.' hn] at hmem
    exact hn (dot_mem_of_toLowerCase filename (dot_mem_of_documentable _ hmem).1)
  · rw [substring_lastIndexOf_of_split filename '.' pre e hsplit he] at hmem
    refine ⟨pre, e, hsplit, he, ?_, ?_, hmem⟩
    · intro hsl
      exact (dot_mem_of_documentable _ hmem).2.1
        (slash_mem_toLowerCase _ (List.mem_cons_of_mem _ hsl))
    · rintro rfl
      exact (dot_mem_of_documentable _ hmem).2.2 (by decide)

/-! ## What the three shapes of skip pattern match -/

theorem Pattern.test_lit_iff (w s : String) :
    (Pattern.lit w).test s = true ↔ w.toList <:+: s.toList := by
  simp only [Pattern.test, Pattern.matchFrom, List.any_eq_true, List.mem_range]
  constructor
  · rintro ⟨i, -, hi⟩
    split at hi
    · rename_i hp
      obtain ⟨t, ht⟩ := List.isPrefixOf_iff_prefix.mp hp
      exact ⟨s.toList.take i, t, by rw [List.append_assoc, ht, List.take_append_drop]⟩
    · exact absurd hi (by simp)
  · rintro ⟨a, b, hab⟩
    refine ⟨a.length, ?_, ?_⟩
    · have : s.length = (a ++ w.toList ++ b).length := by rw [hab]; rfl
      rw [this]
      simp only [List.length_append]
      omega
    · have hd : s.toList.drop a.length = w.toList ++ b := by
        rw [← hab, List.append_assoc, List.drop_left]
      rw [hd]
      simp [List.isPrefixOf_iff_prefix]

theorem Pattern.test_bol_lit_iff (w s : String) :
    (Pattern.seq Pattern.bol (Pattern.lit w)).test s = true ↔ w.toList <+: s.toList := by
  simp only [Pattern.test, Pattern.matchFrom, List.any_eq_true, List.mem_range]
  constructor
  · rintro ⟨i, -, hi⟩
    simp only [Bool.and_eq_true, beq_iff_eq] at hi
    obtain ⟨rfl, hi⟩ := hi
    split at hi
    · rename_i hp
      simpa using List.isPrefixOf_iff_prefix.mp hp
    · exact absurd hi (by simp)
  · intro hp
    refine ⟨0, by omega, ?_⟩
    have hp0 : w.toList.isPrefixOf (s.toList.drop 0) = true :=
      List.isPrefixOf_iff_prefix.mpr hp
    rw [if_pos hp0]
    rfl

theorem Pattern.test_lit_eol_iff (w s : String) :
    (Pattern.seq (Pattern.lit w) Pattern.eol).test s = true ↔ w.toList <:+ s.toList := by
  simp only [Pattern.test, Pattern.matchFrom, List.any_eq_true, List.mem_range]
  constructor
  · rintro ⟨i, hlt, hi⟩
    split at hi
    · rename_i hp
      simp only [Bool.and_true, beq_iff_eq] at hi
      obtain ⟨t, ht⟩ := List.isPrefixOf_iff_prefix.mp hp
      have hlen : (s.toList.drop i).length = (w.toList ++ t).length := by rw [ht]
      have hsl : s.toList.length = s.length := rfl
      have hwl : w.toList.length = w.length := rfl
      simp only [List.length_drop, List.length_append] at hlen
      have ht0 : t = [] := List.length_eq_zero.mp (by omega)
      subst ht0
      exact ⟨s.toList.take i, by
        rw [List.append_nil] at ht
        rw [ht, List.take_append_drop]⟩
    · exact absurd hi (by simp)
  · rintro ⟨a, ha⟩
    have hsl : s.length = a.length + w.length := by
      show s.toList.length = _
      rw [← ha, List.length_append]
      rfl
    refine ⟨a.length, by omega, ?_⟩
    have hd : s.toList.drop a.length = w.toList := by
      rw [← ha, List.drop_left]
    rw [hd]
    simp [hsl]

/-! ## The documentability filter -/

/-- C1: a file name that some skip pattern matches is rejected by
`shouldDocumentFile`, whatever its extension is. -/
theorem shouldDocumentFile_of_skip (filename : String)
    (h : ∃ p ∈ skipPatterns, Pattern.test p filename = true) :
    shouldDocumentFile filename = false := by
  have hm : matchesSkipPattern filename = true := by
    obtain ⟨p, hp, ht⟩ := h
    exact List.any_eq_true.mpr ⟨p, hp, ht⟩
  simp [shouldDocumentFile, hm]

/-- Witness for C1 at `node_modules/lib/index.js`; `package-lock.json` is rejected as well. -/
theorem shouldDocumentFile_of_skip_witness :
    (∃ p ∈ skipPatterns, Pattern.test p "node_modules/lib/index.js" = true) ∧
      shouldDocumentFile "node_modules/lib/index.js" = false ∧
      shouldDocumentFile "package-lock.json" = false :=
  ⟨by decide, shouldDocumentFile_of_skip "node_modules/lib/index.js" (by decide),
    shouldDocumentFile_of_skip "package-lock.json" (by decide)⟩

/-- C2: for a file name that no skip pattern matches, `shouldDocumentFile` returns
true exactly when the name has a dot and the suffix that starts at its last dot,
lower-cased, is one of the 27 allow-listed extensions. -/
theorem shouldDocumentFile_iff_extension (filename : String)
    (h : ∀ p ∈ skipPatterns, Pattern.test p filename = false) :
    shouldDocumentFile filename = true ↔
      ∃ pre e, filename.toList = pre ++ '.' :: e ∧ '.' ∉ e ∧
        toLowerCase ⟨'.' :: e⟩ ∈
          [".js", ".jsx", ".ts", ".tsx", ".py", ".java", ".go", ".rb", ".php", ".cs", ".c",
            ".cpp", ".h", ".swift", ".kt", ".rs", ".html", ".css", ".scss", ".less", ".json",
            ".yml", ".yaml", ".sh", ".bash", ".zsh", ".ps1"] := by
  have hs : matchesSkipPattern filename = false :=
    (matchesSkipPattern_eq_false_iff filename).mpr h
  constructor
  · intro ht
    obtain ⟨pre, e, hsplit, he, -, -, hmem⟩ := split_of_shouldDocumentFile filename ht
    exact ⟨pre, e, hsplit, he, hmem⟩
  · rintro ⟨pre, e, hsplit, he, hmem⟩
    rw [shouldDocumentFile_eq filename hs,
      substring_lastIndexOf_of_split filename '.' pre e hsplit he]
    exact List.elem_iff.mpr hmem

/-- Witness for C2 at `src/app.ts`, with the other examples of the claim evaluated. -/
theorem shouldDocumentFile_iff_extension_witness :
    (∀ p ∈ skipPatterns, Pattern.test p "src/app.ts" = false) ∧
      shouldDocumentFile "src/app.ts" = true ∧
      shouldDocumentFile "src/index.js" = true ∧
      shouldDocumentFile "src/utils/helper.js" = true ∧
      shouldDocumentFile "README.md" = false :=
  ⟨by decide,
    (shouldDocumentFile_iff_extension "src/app.ts" (by decide)).mpr
      ⟨"src/app".toList, "ts".toList, by decide, by decide, by decide⟩,
    by decide, by decide, by decide⟩

/-- Four shapes of path that a skip pattern matches, and that are hence rejected:
a path that contains `node_modules` or `package-lock.json`, a path that starts
with `dist/`, a path that ends with `.min.js`. -/
theorem shouldDocumentFile_skip_shapes (pre post : String) :
    shouldDocumentFile (pre ++ "node_modules" ++ post) = false ∧
      shouldDocumentFile (pre ++ "package-lock.json" ++ post) = false ∧
      shouldDocumentFile ("dist/" ++ post) = false ∧
      shouldDocumentFile (pre ++ ".min.js") = false := by
  have hmem : ∀ (p : Pattern) (s : String), p ∈ skipPatterns → p.test s = true →
      shouldDocumentFile s = false := by
    intro p s hp ht
    have hm : matchesSkipPattern s = true := List.any_eq_true.mpr ⟨p, hp, ht⟩
    simp [shouldDocumentFile, hm]
  refine ⟨?_, ?_, ?_, ?_⟩
  · refine hmem (.lit "node_modules") _ (by simp [skipPatterns]) ?_
    exact (Pattern.test_lit_iff _ _).mpr ⟨pre.toList, post.toList, by simp [String.toList]⟩
  · refine hmem (.lit "package-lock.json") _ (by simp [skipPatterns]) ?_
    exact (Pattern.test_lit_iff _ _).mpr ⟨pre.toList, post.toList, by simp [String.toList]⟩
  · refine hmem (.seq .bol (.lit "dist/")) _ (by simp [skipPatterns]) ?_
    exact (Pattern.test_bol_lit_iff _ _).mpr ⟨post.toList, by simp [String.toList]⟩
  · refine hmem (.seq (.lit ".min.") (.seq (.alt (.lit "js") (.lit "css")) .eol)) _
      (by simp [skipPatterns]) ?_
    have hlen : (pre ++ ".min.js").length = pre.toList.length + 7 := by
      simp [String.length_append]
      rfl
    have hd : (pre ++ ".min.js").toList.drop pre.toList.length = ".min.js".toList := by
      simp [String.toList]
    have hd2 : (pre ++ ".min.js").toList.drop (pre.toList.length + ".min.".length)
        = "js".toList := by
      rw [← List.drop_drop, hd]
      rfl
    refine List.any_eq_true.mpr ⟨pre.toList.length, List.mem_range.mpr (by omega), ?_⟩
    simp only [Pattern.matchFrom, hd, hd2]
    have hl2 : (pre ++ ".min.js").toList.length = pre.toList.length + 7 := hlen
    simp [hl2]
    have h5 : ".min.".length = 5 := by decide
    have h2 : "js".length = 2 := by decide
    rw [h5, h2]

/-- Counterexample to C9 as stated: `.min.js` is a case-sensitive skip pattern, so
upper-casing the extension of `app.min.js` turns a rejected path into an accepted
one, although `JS` and `js` differ in letter case only. -/
theorem shouldDocumentFile_case_counterexample :
    toLowerCase "JS" = toLowerCase "js" ∧
      asciiCaseVariants "js".toList "JS".toList = true ∧
      shouldDocumentFile "app.min.js" = false ∧
      shouldDocumentFile "app.min.JS" = true := by decide

theorem toLowerCaseChar_of_asciiCaseVariant (a b : Char) (h : asciiCaseVariant a b = true) :
    toLowerCaseChar a = toLowerCaseChar b := by
  have upper : ∀ x y : Char, 65 ≤ x.toNat → x.toNat ≤ 90 → y.toNat = x.toNat + 32 →
      toLowerCaseChar x = toLowerCaseChar y := by
    intro x y h1 h2 h3
    have hy : y = Char.ofNat (x.toNat + 32) := by
      rw [← h3]
      exact (Char.ofNat_toNat y).symm
    have hx : toLowerCaseChar x = [Char.ofNat (x.toNat + 32)] := by
      unfold toLowerCaseChar
      rw [if_pos ⟨h1, h2⟩]
    have hy1 : ¬ (65 ≤ y.toNat ∧ y.toNat ≤ 90) := by omega
    have hy2 : ¬ y.toNat = 0x212A := by omega
    have hy3 : ¬ y.toNat = 0x0130 := by omega
    have hyl : toLowerCaseChar y = [y] := by
      unfold toLowerCaseChar
      rw [if_neg hy1, if_neg hy2, if_neg hy3]
    rw [hx, hyl, hy]
  unfold asciiCaseVariant at h
  simp only [Bool.or_eq_true, Bool.and_eq_true, decide_eq_true_eq, beq_iff_eq] at h
  rcases h with (h | ⟨⟨h1, h2⟩, h3⟩) | ⟨⟨h1, h2⟩, h3⟩
  · rw [h]
  · exact upper a b h1 h2 h3
  · exact (upper b a h1 h2 h3).symm

theorem flatMap_toLowerCaseChar_of_asciiCaseVariants (l₁ l₂ : List Char)
    (h : asciiCaseVariants l₁ l₂ = true) :
    l₁.flatMap toLowerCaseChar = l₂.flatMap toLowerCaseChar := by
  induction l₁ generalizing l₂ with
  | nil =>
    cases l₂ with
    | nil => rfl
    | cons b t => simp [asciiCaseVariants] at h
  | cons a t ih =>
    cases l₂ with
    | nil => simp [asciiCaseVariants] at h
    | cons b t₂ =>
      simp only [asciiCaseVariants, Bool.and_eq_true] at h
      rw [List.flatMap_cons, List.flatMap_cons, toLowerCaseChar_of_asciiCaseVariant a b h.1,
        ih t₂ h.2]

/-- Lower-casing keeps every dot. -/
theorem dot_mem_toLowerCase (s : String) (h : '.' ∈ s.toList) :
    '.' ∈ (toLowerCase s).toList :=
  List.mem_flatMap.mpr ⟨'.', h, by simp [toLowerCaseChar_of_dot]⟩

/-- C9, amended: two paths with the same stem whose extensions (the parts after the
last dot) differ only in the case of ASCII letters get the same answer from
`shouldDocumentFile`, provided the change of case does not change whether a skip
pattern matches. -/
theorem shouldDocumentFile_case_insensitive (stem e₁ e₂ : String)
    (h₁ : '.' ∉ e₁.toList)
    (hcase : asciiCaseVariants e₁.toList e₂.toList = true)
    (hskip : matchesSkipPattern (stem ++ "." ++ e₁) = matchesSkipPattern (stem ++ "." ++ e₂)) :
    shouldDocumentFile (stem ++ "." ++ e₁) = shouldDocumentFile (stem ++ "." ++ e₂) := by
  have hlower : toLowerCase e₁ = toLowerCase e₂ := by
    unfold toLowerCase
    rw [flatMap_toLowerCaseChar_of_asciiCaseVariants _ _ hcase]
  have h₂ : '.' ∉ e₂.toList := by
    intro hdot
    have hmem := dot_mem_toLowerCase e₂ hdot
    rw [← hlower] at hmem
    exact h₁ (dot_mem_of_toLowerCase e₁ hmem)
  have key : ∀ e : String, '.' ∉ e.toList →
      toLowerCase (substring (stem ++ "." ++ e) (lastIndexOf (stem ++ "." ++ e) '.'))
        = ⟨'.' :: (toLowerCase e).toList⟩ := by
    intro e he
    have hsplit : (stem ++ "." ++ e).toList = stem.toList ++ '.' :: e.toList := by
      simp [String.toList]
    rw [substring_lastIndexOf_of_split _ '.' _ _ hsplit he, toLowerCase_cons_dot]
    rfl
  unfold shouldDocumentFile
  rw [hskip]
  split
  · rfl
  · simp only [key e₁ h₁, key e₂ h₂, hlower]

/-- Witness for amended C9 at `Main.JS` and `Main.js`. -/
theorem shouldDocumentFile_case_insensitive_witness :
    shouldDocumentFile ("Main" ++ "." ++ "JS") = shouldDocumentFile ("Main" ++ "." ++ "js") ∧
      shouldDocumentFile "Main.JS" = true ∧ shouldDocumentFile "Main.js" = true :=
  ⟨shouldDocumentFile_case_insensitive "Main" "JS" "js" (by decide) (by decide) (by decide),
    by decide, by decide⟩

/-- C10: `shouldDocumentFile` is a total function and returns false for the empty
string, for every path whose part after the last slash holds no dot (whether or
not a directory before it holds one), and for every path that ends in a dot. -/
theorem shouldDocumentFile_no_extension (filename : String)
    (h : filename = "" ∨
      (∃ dir seg, filename.toList = dir ++ seg ∧ (dir = [] ∨ ∃ d, dir = d ++ ['/']) ∧
        '.' ∉ seg) ∨
      (∃ pre, filename.toList = pre ++ ['.'])) :
    shouldDocumentFile filename = false := by
  cases hb : shouldDocumentFile filename with
  | false => rfl
  | true =>
    exfalso
    obtain ⟨pre, e, hsplit, he, hsl, hne, -⟩ := split_of_shouldDocumentFile filename hb
    rcases h with rfl | ⟨dir, seg, hds, hdir, hseg⟩ | ⟨p, hp⟩
    · exact absurd hsplit (by simp [String.toList])
    · rcases hdir with rfl | ⟨d, rfl⟩
      · apply hseg
        have : seg = pre ++ '.' :: e := by rw [← hsplit, hds]; rfl
        simp [this]
      · rw [hsplit, List.append_assoc] at hds
        rcases List.append_eq_append_iff.mp hds with ⟨a, rfl, ha⟩ | ⟨c, rfl, hc⟩
        · cases a with
          | nil => simp at ha
          | cons x xs =>
            simp only [List.cons_append, List.cons.injEq] at ha
            exact hsl (by simp [ha.2])
        · cases c with
          | nil => simp at hc
          | cons x xs =>
            simp only [List.cons_append, List.singleton_append, List.cons.injEq,
              List.nil_append] at hc
            exact hseg (by rw [hc.2]; simp)
    · rw [hsplit] at hp
      rcases List.eq_nil_or_concat e with rfl | ⟨e0, x, rfl⟩
      · exact hne rfl
      · have h2 : (pre ++ '.' :: e0) ++ [x] = p ++ ['.'] := by
          rw [← hp]; simp
        have hx : x = '.' := by
          have := (List.append_inj' h2 rfl).2
          simpa using this
        exact he (by simp [hx])

/-- Witness for C10 at `docs.v2/Makefile`, with the other shapes of the claim evaluated. -/
theorem shouldDocumentFile_no_extension_witness :
    shouldDocumentFile "docs.v2/Makefile" = false ∧
      shouldDocumentFile "" = false ∧
      shouldDocumentFile "Makefile" = false ∧
      shouldDocumentFile "src/app." = false :=
  ⟨shouldDocumentFile_no_extension "docs.v2/Makefile"
      (Or.inr (Or.inl ⟨"docs.v2/".toList, "Makefile".toList, by decide,
        Or.inr ⟨"docs.v2".toList, by decide⟩, by decide⟩)),
    by decide, by decide, by decide⟩

/-! ## The push handler's collection -/

theorem addLiteral_changedFiles (changeType : String) (st : CollectState) (file : String)
    (h : st.Fresh) :
    (addLiteral changeType st file).Fresh ∧
      (addLiteral changeType st file).changedFiles =
        st.changedFiles ++ [⟨st.nextRef, pushEntry changeType file⟩] := by
  have hnot : st.changedFiles.any (fun x => x.ref == st.nextRef) = false := by
    rw [List.any_eq_false]
    intro o ho
    have := h o ho
    simp only [beq_iff_eq]
    omega
  have heq : (addLiteral changeType st file).changedFiles =
      st.changedFiles ++ [⟨st.nextRef, pushEntry changeType file⟩] := by
    simp [addLiteral, setAdd, hnot]
  refine ⟨?_, heq⟩
  intro o ho
  rw [heq, List.mem_append] at ho
  show o.ref < st.nextRef + 1
  rcases ho with ho | ho
  · exact Nat.lt_succ_of_lt (h o ho)
  · rw [List.mem_singleton.mp ho]
    exact Nat.lt_succ_self _

theorem foldl_addLiteral (changeType : String) (files : List String) (st : CollectState)
    (h : st.Fresh) :
    (files.foldl (addLiteral changeType) st).Fresh ∧
      (files.foldl (addLiteral changeType) st).changedFiles.map (fun o => o.value) =
        st.changedFiles.map (fun o => o.value) ++ files.map (pushEntry changeType) := by
  induction files generalizing st with
  | nil => exact ⟨h, by simp⟩
  | cons f fs ih =>
    obtain ⟨hf, hc⟩ := addLiteral_changedFiles changeType st f h
    obtain ⟨h1, h2⟩ := ih (addLiteral changeType st f) hf
    refine ⟨h1, ?_⟩
    rw [List.foldl_cons, h2, hc]
    simp

theorem collectCommit_changedFiles (st : CollectState) (commit : Commit) (h : st.Fresh) :
    (collectCommit st commit).Fresh ∧
      (collectCommit st commit).changedFiles.map (fun o => o.value) =
        st.changedFiles.map (fun o => o.value) ++ commitEntries commit := by
  obtain ⟨h1, e1⟩ := foldl_addLiteral "added" commit.added st h
  obtain ⟨h2, e2⟩ := foldl_addLiteral "modified" commit.modified _ h1
  obtain ⟨h3, e3⟩ := foldl_addLiteral "removed" commit.removed _ h2
  refine ⟨h3, ?_⟩
  show (commit.removed.foldl (addLiteral "removed") _).changedFiles.map _ = _
  rw [e3, e2, e1, commitEntries]
  simp

theorem foldl_collectCommit (commits : List Commit) (st : CollectState) (h : st.Fresh) :
    (commits.foldl collectCommit st).changedFiles.map (fun o => o.value) =
      st.changedFiles.map (fun o => o.value) ++ commits.flatMap commitEntries := by
  induction commits generalizing st with
  | nil => simp
  | cons c cs ih =>
    obtain ⟨hf, hc⟩ := collectCommit_changedFiles st c h
    rw [List.foldl_cons, ih _ hf, hc]
    simp

/-- The set of the push handler never merges two entries: every mention of a path
in a commit list gives an entry of its own. -/
theorem collectPushChanges_eq_flatMap (commits : List Commit) :
    collectPushChanges commits = commits.flatMap commitEntries := by
  have := foldl_collectCommit commits ⟨0, []⟩ (fun o ho => absurd ho (by simp))
  simpa [collectPushChanges, collectChangedFiles] using this

/-- C3, the code at the failing input: `b.js` is listed as modified by both commits
of the push and the collected set holds two `modified` entries for it. -/
theorem collectPushChanges_keeps_duplicates :
    collectPushChanges [⟨["a.js"], ["b.js"], []⟩, ⟨[], ["b.js"], ["c.js"]⟩] =
      [pushEntry "added" "a.js", pushEntry "modified" "b.js", pushEntry "modified" "b.js",
        pushEntry "removed" "c.js"] ∧
    (collectPushChanges [⟨["a.js"], ["b.js"], []⟩, ⟨[], ["b.js"], ["c.js"]⟩]).count
      (pushEntry "modified" "b.js") = 2 := by
  decide

/-! ## The pull-request handler's list -/

/-- C4: `getChangeType` maps `added`, `removed`, `modified` and `renamed` to
themselves, `changed` to `modified` and every other status to itself; the
pull-request handler maps the file list one-for-one and in order, with the
path, the normalised status and the three counters of each record. -/
theorem getChangeType_formattedChanges (s : String) (changedFiles : List PullFile) (i : Nat) :
    getChangeType "added" = "added" ∧ getChangeType "removed" = "removed" ∧
    getChangeType "modified" = "modified" ∧ getChangeType "changed" = "modified" ∧
    getChangeType "renamed" = "renamed" ∧ getChangeType "copied" = "copied" ∧
    (s ≠ "changed" → getChangeType s = s) ∧
    (formattedChanges changedFiles).length = changedFiles.length ∧
    (formattedChanges changedFiles)[i]? = changedFiles[i]?.map (fun file =>
      ⟨file.filename, getChangeType file.status, some file.additions, some file.deletions,
        some file.changes, none⟩) := by
  refine ⟨by decide, by decide, by decide, by decide, by decide, by decide, ?_, ?_, ?_⟩
  · intro hs
    unfold getChangeType
    split <;> first | rfl | exact absurd rfl hs
  · simp [formattedChanges]
  · simp [formattedChanges]

/-- Witness for C4 at the unrecognised status `copied` and a two-record file list. -/
theorem getChangeType_formattedChanges_witness :
    getChangeType "copied" = "copied" ∧
      (formattedChanges [⟨"a.js", "changed", 0, 2, 2⟩, ⟨"b.js", "copied", 5, 0, 5⟩])[1]? =
        some ⟨"b.js", "copied", some 5, some 0, some 5, none⟩ :=
  ⟨(getChangeType_formattedChanges "copied" [] 0).2.2.2.2.2.2.1 (by decide),
    (getChangeType_formattedChanges "" [⟨"a.js", "changed", 0, 2, 2⟩,
      ⟨"b.js", "copied", 5, 0, 5⟩] 1).2.2.2.2.2.2.2.2⟩

/-! ## Traces -/

theorem posts_append (t₁ t₂ : List Effect) : posts (t₁ ++ t₂) = posts t₁ ++ posts t₂ := by
  induction t₁ with
  | nil => rfl
  | cons e t ih => cases e <;> simp [posts, ih]

theorem comments_append (t₁ t₂ : List Effect) :
    comments (t₁ ++ t₂) = comments t₁ ++ comments t₂ := by
  induction t₁ with
  | nil => rfl
  | cons e t ih => cases e <;> simp [comments, ih]

theorem posts_map_log {α : Type} (l : List α) (level : α → String) (message : α → String) :
    posts (l.map (fun a => Effect.log (level a) (message a))) = [] := by
  induction l with
  | nil => rfl
  | cons a t ih => simpa [posts] using ih

theorem comments_map_log {α : Type} (l : List α) (level : α → String) (message : α → String) :
    comments (l.map (fun a => Effect.log (level a) (message a))) = [] := by
  induction l with
  | nil => rfl
  | cons a t ih => simpa [comments] using ih

theorem posts_filterLogs (data : DocData) : posts (filterLogs data) = [] := by
  simp [filterLogs, posts_append, posts, posts_map_log]

theorem comments_filterLogs (data : DocData) : comments (filterLogs data) = [] := by
  simp [filterLogs, comments_append, comments, comments_map_log]

theorem posts_skipLogs : posts skipLogs = [] := rfl

theorem comments_skipLogs : comments skipLogs = [] := rfl

/-! ## updateDocumentation: the early return -/

/-- C5: when no file of the request passes `shouldDocumentFile` (the empty file list
included), `updateDocumentation` returns normally after the `Skipping update`
warning: its trace is the log lines alone, so `sendToDocumentationServer` is not
called, no HTTP POST is issued and no comment is posted. -/
theorem updateDocumentation_skips (env : Env) (data : DocData)
    (h : ∀ file ∈ data.files, shouldDocumentFile file.path = false) :
    (updateDocumentation env data).1 = filterLogs data ++ skipLogs ∧
      Effect.log "warn" "No documentable files found in this change. Skipping update." ∈
        (updateDocumentation env data).1 ∧
      posts (updateDocumentation env data).1 = [] ∧
      comments (updateDocumentation env data).1 = [] ∧
      (updateDocumentation env data).2 = Except.ok () := by
  have hfilter : data.files.filter (fun file => shouldDocumentFile file.path) = [] := by
    rw [List.filter_eq_nil_iff]
    intro file hfile
    simp [h file hfile]
  have htry : updateDocumentationTry env data = (filterLogs data ++ skipLogs, Except.ok ()) := by
    simp [updateDocumentationTry, hfilter]
  have hrun : updateDocumentation env data = (filterLogs data ++ skipLogs, Except.ok ()) := by
    simp [updateDocumentation, htry]
  rw [hrun]
  refine ⟨rfl, ?_, ?_, ?_, rfl⟩
  · exact List.mem_append_right _ (List.mem_cons_self _ _)
  · simp [posts_append, posts_filterLogs, posts_skipLogs]
  · simp [comments_append, comments_filterLogs, comments_skipLogs]

/-- Witness for C5 at a pull-request request whose only file is `package-lock.json`. -/
theorem updateDocumentation_skips_witness :
    (∀ file ∈ lockfileOnly.files, shouldDocumentFile file.path = false) ∧
      posts (updateDocumentation sampleEnv lockfileOnly).1 = [] ∧
      comments (updateDocumentation sampleEnv lockfileOnly).1 = [] ∧
      (updateDocumentation sampleEnv lockfileOnly).2 = Except.ok () :=
  ⟨by decide,
    (updateDocumentation_skips sampleEnv lockfileOnly (by decide)).2.2.1,
    (updateDocumentation_skips sampleEnv lockfileOnly (by decide)).2.2.2.1,
    (updateDocumentation_skips sampleEnv lockfileOnly (by decide)).2.2.2.2⟩

/-! ## sendToDocumentationServer: the request -/

theorem buildPayload_get (data : DocData) :
    (buildPayload data).get? "owner" = some (Json.str data.owner) ∧
    (buildPayload data).get? "repo" = some (Json.str data.repo) ∧
    (buildPayload data).get? "branch" =
      (data.branch.filter (fun b => b != "")).map Json.str ∧
    (buildPayload data).get? "prNumber" =
      (data.prNumber.filter (fun n => n != 0)).map Json.num ∧
    (buildPayload data).get? "files" = some (Json.arr
      ((data.files.filter (fun file => shouldDocumentFile file.path)).map filePayload)) := by
  rcases data with ⟨owner, repo, branch, prNumber, files⟩
  rcases branch with _ | b <;> rcases prNumber with _ | n
  all_goals
    simp only [buildPayload, Json.get?, spreadStr, spreadNum, truthyStr, truthyNum,
      Option.filter, Option.map, Option.getD]
    try by_cases hb : b = ""
    all_goals try by_cases hn : n = 0
    all_goals simp [List.lookup, *]

theorem filePayload_get (file : FileChange) :
    (filePayload file).get? "path" = some (Json.str file.path) ∧
    (filePayload file).get? "changeType" = some (Json.str file.changeType) ∧
    (filePayload file).get? "additions" =
      (file.additions.filter (fun n => n != 0)).map Json.num ∧
    (filePayload file).get? "deletions" =
      (file.deletions.filter (fun n => n != 0)).map Json.num ∧
    (filePayload file).get? "changes" =
      (file.changes.filter (fun n => n != 0)).map Json.num := by
  rcases file with ⟨path, changeType, additions, deletions, changes, content⟩
  rcases additions with _ | a <;> rcases deletions with _ | d <;> rcases changes with _ | c
  all_goals
    simp only [filePayload, Json.get?, spreadNum, truthyNum, Option.filter, Option.map,
      Option.getD]
    try by_cases ha : a = 0
    all_goals try by_cases hd : d = 0
    all_goals try by_cases hc : c = 0
    all_goals simp [List.lookup, *]

/-- The POSTs of `sendToDocumentationServer`: one request when the server URL is
configured, none otherwise. -/
theorem posts_sendToDocumentationServer (env : Env) (data : DocData) :
    posts (sendToDocumentationServer env data).1 =
      if truthyStr env.docsServerUrl then
        [buildRequest (env.docsServerUrl.getD "") env.apiKey data]
      else [] := by
  unfold sendToDocumentationServer
  cases hurl : truthyStr env.docsServerUrl with
  | false => simp [posts]
  | true =>
    simp only [Bool.not_true, Bool.false_eq_true, if_false, if_true]
    cases env.post (buildRequest (env.docsServerUrl.getD "") env.apiKey data) <;> simp [posts]

theorem comments_sendToDocumentationServer (env : Env) (data : DocData) :
    comments (sendToDocumentationServer env data).1 = [] := by
  unfold sendToDocumentationServer
  cases hurl : truthyStr env.docsServerUrl with
  | false => simp [comments]
  | true =>
    simp only [Bool.not_true, Bool.false_eq_true, if_false]
    cases env.post (buildRequest (env.docsServerUrl.getD "") env.apiKey data) <;>
      simp [comments]

/-- The POSTs of `updateDocumentation` are those of the one call it makes to
`sendToDocumentationServer`, and it makes that call only with a non-empty list
of documentable files. -/
theorem posts_updateDocumentation (env : Env) (data : DocData) :
    posts (updateDocumentation env data).1 =
      if data.files.filter (fun file => shouldDocumentFile file.path) = [] then []
      else posts (sendToDocumentationServer env
        { data with files := data.files.filter (fun file => shouldDocumentFile file.path) }).1 := by
  by_cases hk : data.files.filter (fun file => shouldDocumentFile file.path) = []
  · have htry : updateDocumentationTry env data = (filterLogs data ++ skipLogs, Except.ok ()) := by
      simp [updateDocumentationTry, hk]
    simp [updateDocumentation, htry, hk, posts_append, posts_filterLogs, posts_skipLogs]
  · rw [if_neg hk]
    have hlen : ((data.files.filter (fun file => shouldDocumentFile file.path)).length == 0)
        = false := by
      simpa using hk
    unfold updateDocumentation updateDocumentationTry
    simp only [hlen, Bool.false_eq_true, if_false]
    cases hs : (sendToDocumentationServer env
        { data with files := data.files.filter (fun file => shouldDocumentFile file.path) }).2 with
    | error m =>
      by_cases hp : truthyNum data.prNumber = true
      · simp [hp, postComment, posts_append, posts_filterLogs, posts_map_log, posts]
      · simp [hp, posts_append, posts_filterLogs, posts_map_log, posts]
    | ok r =>
      by_cases hp : truthyNum data.prNumber = true
      · simp only [hp, if_true, postComment]
        cases env.createComment (triggeredComment data) <;>
          simp [hp, postComment, posts_append, posts_filterLogs, posts_map_log, posts]
      · simp [hp, posts_append, posts_filterLogs, posts_map_log, posts]

/-- Counterexample to C6 as stated: with a configured server URL and a request whose
only file fails the filter, `sendToDocumentationServer` still issues its POST,
with an empty `files` list. -/
theorem sendToDocumentationServer_posts_empty :
    truthyStr sampleEnv.docsServerUrl = true ∧
      (∀ file ∈ lockfileOnly.files, shouldDocumentFile file.path = false) ∧
      (posts (sendToDocumentationServer sampleEnv lockfileOnly).1).length = 1 ∧
      (posts (sendToDocumentationServer sampleEnv lockfileOnly).1).map
        (fun request => request.payload.get? "files") = [some (Json.arr [])] :=
  ⟨by decide, by decide, by decide, rfl⟩

/-- C6, amended: with a configured server URL, `sendToDocumentationServer` posts
exactly one request, whose `files` are the objects built from exactly the input
entries that pass `shouldDocumentFile`, in input order (an empty list when none
passes); and every request that `updateDocumentation` causes to be posted has
such a `files` list that is moreover not empty. -/
theorem sendToDocumentationServer_files (env : Env) (data : DocData)
    (hurl : truthyStr env.docsServerUrl = true) :
    (∃ request, posts (sendToDocumentationServer env data).1 = [request] ∧
      request.payload.get? "files" = some (Json.arr
        ((data.files.filter (fun file => shouldDocumentFile file.path)).map filePayload))) ∧
    (∀ file ∈ data.files.filter (fun file => shouldDocumentFile file.path),
      file ∈ data.files ∧ shouldDocumentFile file.path = true) ∧
    (∀ request ∈ posts (updateDocumentation env data).1,
      data.files.filter (fun file => shouldDocumentFile file.path) ≠ [] ∧
      request.payload.get? "files" = some (Json.arr
        ((data.files.filter (fun file => shouldDocumentFile file.path)).map filePayload))) := by
  refine ⟨⟨buildRequest (env.docsServerUrl.getD "") env.apiKey data, ?_,
    (buildPayload_get data).2.2.2.2⟩, ?_, ?_⟩
  · rw [posts_sendToDocumentationServer, if_pos hurl]
  · intro file hfile
    exact List.mem_filter.mp hfile
  · intro request hreq
    rw [posts_updateDocumentation] at hreq
    by_cases hk : data.files.filter (fun file => shouldDocumentFile file.path) = []
    · rw [if_pos hk] at hreq
      exact absurd hreq (List.not_mem_nil _)
    · rw [if_neg hk, posts_sendToDocumentationServer, if_pos hurl] at hreq
      refine ⟨hk, ?_⟩
      rw [List.mem_singleton.mp hreq]
      have := (buildPayload_get { data with
        files := data.files.filter (fun file => shouldDocumentFile file.path) }).2.2.2.2
      simpa [buildRequest, List.filter_filter] using this

/-- Witness for C6 at the request of the API test: the lock file is left out and the
two source files are sent in their order. -/
theorem sendToDocumentationServer_files_witness :
    truthyStr sampleEnv.docsServerUrl = true ∧
      ∃ request, posts (sendToDocumentationServer sampleEnv apiTestData).1 = [request] ∧
        request.payload.get? "files" = some (Json.arr
          ([⟨"src/index.js", "modified", none, none, none, some "main();"⟩,
            ⟨"src/utils/helper.js", "added", none, none, none,
              some "export function formatData"⟩].map filePayload)) :=
  ⟨by decide, (sendToDocumentationServer_files sampleEnv apiTestData (by decide)).1⟩

/-! ## sendToDocumentationServer: optional fields of the payload -/

theorem ne_null_zero_of_filter (o : Option Nat) :
    (o.filter (fun n => n != 0)).map Json.num ≠ some Json.null ∧
      (o.filter (fun n => n != 0)).map Json.num ≠ some (Json.num 0) := by
  rcases o with _ | n
  · simp
  · by_cases hn : n = 0
    · simp [Option.filter, hn]
    · simp [Option.filter, hn]

/-- Counterexample to C7 as stated: the entry of a pull-request file with deletions
only has `additions` present with value 0, and the payload object built for it has
no `additions` key. -/
theorem filePayload_drops_zero :
    deletionsOnly.files.map (fun file => file.additions) = [some 0] ∧
      (posts (sendToDocumentationServer sampleEnv deletionsOnly).1).map
        (fun request => request.payload.get? "files") =
        [some (Json.arr [Json.obj [("path", Json.str "src/app.js"), ("content", Json.str ""),
          ("changeType", Json.str "modified"), ("deletions", Json.num 3),
          ("changes", Json.num 3)]])] :=
  ⟨by decide, rfl⟩

/-- C7, amended: in every request that `sendToDocumentationServer` posts, `owner` and
`repo` are copied, `branch` is present exactly when the source has a non-empty
branch and `prNumber` exactly when the source has a non-zero number, each with the
source's value; the `files` are built from the documentable entries, and in the
object of each entry `path` and `changeType` are copied and `additions`,
`deletions` and `changes` are present exactly when the entry has a non-zero value
for them, with that value. An optional key is never sent as null or as zero. -/
theorem payload_optional_fields (env : Env) (data : DocData) (request : HttpRequest)
    (hreq : request ∈ posts (sendToDocumentationServer env data).1) :
    request.payload.get? "owner" = some (Json.str data.owner) ∧
    request.payload.get? "repo" = some (Json.str data.repo) ∧
    request.payload.get? "branch" = (data.branch.filter (fun b => b != "")).map Json.str ∧
    request.payload.get? "prNumber" =
      (data.prNumber.filter (fun n => n != 0)).map Json.num ∧
    request.payload.get? "prNumber" ≠ some Json.null ∧
    request.payload.get? "prNumber" ≠ some (Json.num 0) ∧
    request.payload.get? "files" = some (Json.arr
      ((data.files.filter (fun file => shouldDocumentFile file.path)).map filePayload)) ∧
    ∀ file : FileChange,
      (filePayload file).get? "path" = some (Json.str file.path) ∧
      (filePayload file).get? "changeType" = some (Json.str file.changeType) ∧
      (filePayload file).get? "additions" =
        (file.additions.filter (fun n => n != 0)).map Json.num ∧
      (filePayload file).get? "deletions" =
        (file.deletions.filter (fun n => n != 0)).map Json.num ∧
      (filePayload file).get? "changes" =
        (file.changes.filter (fun n => n != 0)).map Json.num ∧
      ∀ key ∈ ["additions", "deletions", "changes"],
        (filePayload file).get? key ≠ some Json.null ∧
        (filePayload file).get? key ≠ some (Json.num 0) := by
  rw [posts_sendToDocumentationServer] at hreq
  have hr : request = buildRequest (env.docsServerUrl.getD "") env.apiKey data := by
    split at hreq
    · exact List.mem_singleton.mp hreq
    · exact absurd hreq (List.not_mem_nil _)
  have hp : request.payload = buildPayload data := by rw [hr]; rfl
  obtain ⟨h1, h2, h3, h4, h5⟩ := buildPayload_get data
  rw [hp]
  refine ⟨h1, h2, h3, h4, ?_, ?_, h5, ?_⟩
  · rw [h4]; exact (ne_null_zero_of_filter _).1
  · rw [h4]; exact (ne_null_zero_of_filter _).2
  · intro file
    obtain ⟨f1, f2, f3, f4, f5⟩ := filePayload_get file
    refine ⟨f1, f2, f3, f4, f5, ?_⟩
    intro key hkey
    simp only [List.mem_cons, List.mem_singleton, List.not_mem_nil, or_false] at hkey
    rcases hkey with rfl | rfl | rfl
    · rw [f3]; exact ne_null_zero_of_filter _
    · rw [f4]; exact ne_null_zero_of_filter _
    · rw [f5]; exact ne_null_zero_of_filter _

/-- Witness for C7 at the request of the API test, a push request: `branch` is sent
and `prNumber` is left out. -/
theorem payload_optional_fields_witness :
    buildRequest "https://docs.example.com" none apiTestData ∈
        posts (sendToDocumentationServer sampleEnv apiTestData).1 ∧
      (buildRequest "https://docs.example.com" none apiTestData).payload.get? "branch" =
        some (Json.str "main") ∧
      (buildRequest "https://docs.example.com" none apiTestData).payload.get? "prNumber" =
        none :=
  ⟨List.mem_singleton.mpr rfl,
    (payload_optional_fields sampleEnv apiTestData _ (List.mem_singleton.mpr rfl)).2.2.1,
    (payload_optional_fields sampleEnv apiTestData _ (List.mem_singleton.mpr rfl)).2.2.2.1⟩

/-! ## processChangedFiles: the content requests -/

theorem filesWithContent_getElem? (env : Env) (changedFiles : List FileChange) (i : Nat) :
    (filesWithContent env changedFiles)[i]? =
      changedFiles[i]?.map (fun fileChange => (fetchContent env i fileChange).1) := by
  simp only [filesWithContent, List.getElem?_map, List.getElem?_enum]
  cases changedFiles[i]? <;> rfl

/-- C8: the content step of `processChangedFiles` returns a list as long as its
input and in the same order; a `removed` entry and an entry whose content request
fails are returned as they are, every other entry is returned with the decoded
content added; the entry at an index depends on the input entry and on the
outcome of the request at that index only, so a failure for one file leaves the
results for the others as they are. -/
theorem filesWithContent_spec (env : Env) (changedFiles : List FileChange) (i : Nat)
    (fileChange : FileChange) (hi : changedFiles[i]? = some fileChange) :
    (filesWithContent env changedFiles).length = changedFiles.length ∧
    ((fileChange.changeType = "removed" ∨ ∃ message, env.getContent i = Except.error message) →
      (filesWithContent env changedFiles)[i]? = some fileChange) ∧
    (∀ data, fileChange.changeType ≠ "removed" → env.getContent i = Except.ok data →
      (filesWithContent env changedFiles)[i]? =
        some { fileChange with content := some (env.decodeBase64 data) }) ∧
    (∀ other : Env, other.getContent i = env.getContent i →
      other.decodeBase64 = env.decodeBase64 →
      (filesWithContent other changedFiles)[i]? = (filesWithContent env changedFiles)[i]?) := by
  refine ⟨by simp [filesWithContent], ?_, ?_, ?_⟩
  · rintro (hrem | ⟨message, hfail⟩)
    · simp [filesWithContent_getElem?, hi, fetchContent, hrem]
    · rw [filesWithContent_getElem?, hi]
      by_cases hrem : fileChange.changeType = "removed"
      · simp [fetchContent, hrem]
      · simp [fetchContent, hrem, hfail]
  · intro data hrem hok
    simp [filesWithContent_getElem?, hi, fetchContent, hrem, hok]
  · intro other hget hdec
    simp only [filesWithContent_getElem?, hi, fetchContent, hget, hdec]

/-- Witness for C8 at the three files of the API test, the request for the second
failing: the second entry is returned without content and the third with it. -/
theorem filesWithContent_spec_witness :
    (filesWithContent secondFetchFails (apiTestData.files.map
        (fun file => { file with content := none })))[1]? =
      some ⟨"src/utils/helper.js", "added", none, none, none, none⟩ ∧
    (filesWithContent secondFetchFails (apiTestData.files.map
        (fun file => { file with content := none })))[2]? =
      some ⟨"package-lock.json", "modified", none, none, none, some "Y29udGVudA=="⟩ :=
  ⟨(filesWithContent_spec secondFetchFails _ 1 _ rfl).2.1 (Or.inr ⟨"Not Found", rfl⟩),
    (filesWithContent_spec secondFetchFails _ 2 _ rfl).2.2.1 "Y29udGVudA==" (by decide) rfl⟩

/-! ## The anchored directory patterns -/

theorem shouldDocumentFile_of_matchesSkipPattern (filename : String)
    (h : matchesSkipPattern filename = true) : shouldDocumentFile filename = false := by
  simp [shouldDocumentFile, h]

/-- Counterexample to C11 as stated: the six directory patterns are anchored at the
start of the path, so a path under a nested `test` or `dist` directory is accepted
when its extension is allow-listed. -/
theorem shouldDocumentFile_nested_directory :
    shouldDocumentFile "src/test/api-test.js" = true ∧
      shouldDocumentFile "packages/a/dist/index.js" = true := by decide

/-- C11, amended: `shouldDocumentFile` returns false for every path whose first
segment is a directory named `dist`, `build`, `coverage`, `test`, `tests` or
`__tests__`, whatever follows the slash. -/
theorem shouldDocumentFile_top_directory (dir rest : String)
    (hdir : dir ∈ ["dist", "build", "coverage", "test", "tests", "__tests__"]) :
    shouldDocumentFile (dir ++ "/" ++ rest) = false := by
  apply shouldDocumentFile_of_matchesSkipPattern
  have hpat : Pattern.seq Pattern.bol (Pattern.lit (dir ++ "/")) ∈ skipPatterns := by
    simp only [List.mem_cons, List.mem_singleton, List.not_mem_nil, or_false] at hdir
    rcases hdir with rfl | rfl | rfl | rfl | rfl | rfl <;> simp [skipPatterns]
  refine List.any_eq_true.mpr ⟨_, hpat, ?_⟩
  exact (Pattern.test_bol_lit_iff _ _).mpr ⟨rest.toList, by simp [String.toList]⟩

/-- Witness for amended C11 at `test/a.js`. -/
theorem shouldDocumentFile_top_directory_witness :
    shouldDocumentFile ("test" ++ "/" ++ "a.js") = false ∧
      shouldDocumentFile "test/a.js" = false :=
  ⟨shouldDocumentFile_top_directory "test" "a.js" (by decide), by decide⟩

/-! ## updateDocumentation: failures of the notification comments -/

theorem logged_append (level : String) (t₁ t₂ : List Effect) :
    logged level (t₁ ++ t₂) = logged level t₁ ++ logged level t₂ := by
  induction t₁ with
  | nil => rfl
  | cons e t ih =>
    cases e with
    | log l message =>
      by_cases hl : l = level <;> simp [logged, hl, ih]
    | httpPost r => simp [logged, ih]
    | createComment c => simp [logged, ih]

theorem logged_error_map_info {α : Type} (l : List α) (message : α → String) :
    logged "error" (l.map (fun a => Effect.log "info" (message a))) = [] := by
  induction l with
  | nil => rfl
  | cons a t ih => simpa [logged] using ih

theorem logged_error_filterLogs (data : DocData) : logged "error" (filterLogs data) = [] := by
  simp [filterLogs, logged_append, logged, logged_error_map_info]

/-- A call of `sendToDocumentationServer` that returns has issued its POST and
logged nothing. -/
theorem sendToDocumentationServer_of_ok (env : Env) (data : DocData) (response : Json)
    (h : (sendToDocumentationServer env data).2 = Except.ok response) :
    (sendToDocumentationServer env data).1 =
      [Effect.httpPost (buildRequest (env.docsServerUrl.getD "") env.apiKey data)] := by
  unfold sendToDocumentationServer at h ⊢
  cases hurl : truthyStr env.docsServerUrl with
  | false => simp [hurl] at h
  | true =>
    simp only [hurl, Bool.not_true, Bool.false_eq_true, if_false] at h ⊢
    cases hp : env.post (buildRequest (env.docsServerUrl.getD "") env.apiKey data) with
    | ok r => rfl
    | error m => simp [hp] at h

/-- The run of `updateDocumentation` in which the dispatch succeeds and the comment
that announces it fails with `message`. -/
theorem updateDocumentation_of_comment_error (env : Env) (data : DocData)
    (response : Json) (message : String)
    (hpr : truthyNum data.prNumber = true)
    (hfiles : data.files.filter (fun file => shouldDocumentFile file.path) ≠ [])
    (hsent : (sendToDocumentationServer env
      { data with files := data.files.filter (fun file => shouldDocumentFile file.path) }).2
        = Except.ok response)
    (hcomment : env.createComment (triggeredComment data) = Except.error message) :
    logged "error" (updateDocumentation env data).1 =
        ["Error updating documentation: " ++ message] ∧
      comments (updateDocumentation env data).1 =
        [triggeredComment data, errorComment data message] ∧
      (updateDocumentation env data).2 = env.createComment (errorComment data message) := by
  have hlen : ((data.files.filter (fun file => shouldDocumentFile file.path)).length == 0)
      = false := by
    simpa using hfiles
  have htrace := sendToDocumentationServer_of_ok env _ response hsent
  unfold updateDocumentation updateDocumentationTry
  simp only [hlen, Bool.false_eq_true, if_false, hsent, hpr, if_true, postComment, hcomment,
    htrace]
  refine ⟨?_, ?_, trivial⟩
  · simp [logged_append, logged_error_filterLogs, logged_error_map_info, logged]
  · simp [comments_append, comments_filterLogs, comments_map_log, comments]

/-- The run of `updateDocumentation` on a pull request in which the dispatch fails
with `message`. -/
theorem updateDocumentation_of_dispatch_error (env : Env) (data : DocData) (message : String)
    (hpr : truthyNum data.prNumber = true)
    (hfiles : data.files.filter (fun file => shouldDocumentFile file.path) ≠ [])
    (hsent : (sendToDocumentationServer env
      { data with files := data.files.filter (fun file => shouldDocumentFile file.path) }).2
        = Except.error message) :
    "Error updating documentation: " ++ message ∈
        logged "error" (updateDocumentation env data).1 ∧
      comments (updateDocumentation env data).1 = [errorComment data message] ∧
      (updateDocumentation env data).2 = env.createComment (errorComment data message) := by
  have hlen : ((data.files.filter (fun file => shouldDocumentFile file.path)).length == 0)
      = false := by
    simpa using hfiles
  unfold updateDocumentation updateDocumentationTry
  simp only [hlen, Bool.false_eq_true, if_false, hsent, hpr, if_true, postComment]
  refine ⟨?_, ?_, trivial⟩
  · simp [logged_append, logged]
  · simp [comments_append, comments_filterLogs, comments_map_log, comments,
      comments_sendToDocumentationServer]

/-- Counterexample to C12 as stated: on a pull request whose dispatch succeeds, a
failing announcement comment is caught by the `catch` block of
`updateDocumentation`, which logs `Error updating documentation` and posts the
error comment; as that comment fails too, its error leaves the function. The
same happens to the error comment when the dispatch itself fails. -/
theorem updateDocumentation_comment_failure_reported :
    (sendToDocumentationServer commentsFail pullRequestData).2.toBool = true ∧
      commentsFail.createComment (triggeredComment pullRequestData) =
        Except.error "Resource not accessible by integration" ∧
      logged "error" (updateDocumentation commentsFail pullRequestData).1 =
        ["Error updating documentation: Resource not accessible by integration"] ∧
      comments (updateDocumentation commentsFail pullRequestData).1 =
        [triggeredComment pullRequestData,
          errorComment pullRequestData "Resource not accessible by integration"] ∧
      (updateDocumentation commentsFail pullRequestData).2 =
        Except.error "Resource not accessible by integration" ∧
      (sendToDocumentationServer serverAndCommentsFail pullRequestData).2.toBool = false ∧
      (updateDocumentation serverAndCommentsFail pullRequestData).2 =
        Except.error "Resource not accessible by integration" :=
  ⟨rfl, rfl, by decide, rfl, rfl, rfl, rfl⟩

/-- C12, amended: on a pull request with documentable files, a failure of the
announcement comment after a successful dispatch is handled by the `catch` block
of `updateDocumentation` like a dispatch failure: the POST has been issued and
the response logged, then `Error updating documentation` is logged with the
comment's error and the error comment is posted; when the dispatch fails, the
error is logged and the error comment is posted. In both cases the run ends as
the posting of the error comment ends, so an error leaves `updateDocumentation`
exactly when the error comment fails; `processChangedFiles` catches that error
and logs it as its last error line. -/
theorem updateDocumentation_comment_failure (env : Env) (data : DocData) (message : String)
    (hpr : truthyNum data.prNumber = true)
    (hfiles : data.files.filter (fun file => shouldDocumentFile file.path) ≠ []) :
    ((∃ response, (sendToDocumentationServer env { data with
          files := data.files.filter (fun file => shouldDocumentFile file.path) }).2
          = Except.ok response) →
      env.createComment (triggeredComment data) = Except.error message →
      posts (updateDocumentation env data).1 = posts (sendToDocumentationServer env
        { data with files := data.files.filter (fun file => shouldDocumentFile file.path) }).1 ∧
      "Documentation server response received. Documentation generation started." ∈
        logged "info" (updateDocumentation env data).1 ∧
      logged "error" (updateDocumentation env data).1 =
        ["Error updating documentation: " ++ message] ∧
      comments (updateDocumentation env data).1 =
        [triggeredComment data, errorComment data message] ∧
      (updateDocumentation env data).2 = env.createComment (errorComment data message)) ∧
    ((sendToDocumentationServer env { data with
          files := data.files.filter (fun file => shouldDocumentFile file.path) }).2
          = Except.error message →
      "Error updating documentation: " ++ message ∈
        logged "error" (updateDocumentation env data).1 ∧
      comments (updateDocumentation env data).1 = [errorComment data message] ∧
      (updateDocumentation env data).2 = env.createComment (errorComment data message)) ∧
    (∀ (owner repo branch : String) (changedFiles : List FileChange) (prNumber : Option Nat)
        (cause : String),
      (updateDocumentation env
        { owner := owner, repo := repo, branch := some branch, prNumber := prNumber,
          files := filesWithContent env changedFiles }).2 = Except.error cause →
      (logged "error"
        (processChangedFiles env owner repo branch changedFiles prNumber)).getLast? =
          some ("Error processing changed files: " ++ cause)) := by
  refine ⟨?_, ?_, ?_⟩
  · rintro ⟨response, hsent⟩ hcomment
    obtain ⟨h1, h2, h3⟩ :=
      updateDocumentation_of_comment_error env data response message hpr hfiles hsent hcomment
    refine ⟨?_, ?_, h1, h2, h3⟩
    · rw [posts_updateDocumentation, if_neg hfiles]
    · have hlen : ((data.files.filter (fun file => shouldDocumentFile file.path)).length == 0)
          = false := by
        simpa using hfiles
      unfold updateDocumentation updateDocumentationTry
      simp only [hlen, Bool.false_eq_true, if_false, hsent, hpr, if_true, postComment,
        hcomment]
      simp [logged_append, logged]
  · intro hsent
    exact updateDocumentation_of_dispatch_error env data message hpr hfiles hsent
  · intro owner repo branch changedFiles prNumber cause hcause
    unfold processChangedFiles
    simp only [hcause]
    simp [logged_append, logged]

/-- Witness for amended C12 at a pull request with one documentable file, in an
environment in which the server answers and every comment fails. -/
theorem updateDocumentation_comment_failure_witness :
    truthyNum pullRequestData.prNumber = true ∧
      logged "error" (updateDocumentation commentsFail pullRequestData).1 =
        ["Error updating documentation: " ++ "Resource not accessible by integration"] :=
  ⟨by decide,
    ((updateDocumentation_comment_failure commentsFail pullRequestData
      "Resource not accessible by integration" (by decide) (by decide)).1
        ⟨Json.obj [], rfl⟩ rfl).2.2.1⟩

end GeniDocs
